import Mathlib

set_option maxRecDepth 100000

/-!
Verification of the `bfi_rs` Brainfuck interpreter (`src/main.rs`).

The three pipeline stages of the Rust source are embedded as executable
Lean functions:

* `lex`      embeds `fn lex(source: String) -> Vec<OpCode>`;
* `parse`    embeds `fn parse(opcodes: Vec<OpCode>) -> Vec<Instruction>`,
  with the two `panic!` calls turned into `Except.error` values;
* `runF`     embeds `fn run(&Vec<Instruction>, &mut Vec<u8>, &mut usize)`,
  fuelled (the interpreted language admits nonterminating loops), with
  every Rust panic turned into an `Except.error` value.

Machine integers are embedded as `Nat` with the overflow checks that the
default (debug) Rust profile performs: `u8 += 1` / `u8 -= 1` and
`usize += 1` / `usize -= 1` panic on overflow or underflow there rather
than wrapping, `Vec` indexing panics when the index is out of bounds, and
`read_exact(..).expect(..)` panics when stdin is exhausted.  `print!` of a
`u8 as char` writes the UTF-8 encoding of that code point to stdout, which
is modelled byte-exactly by `utf8Bytes`.
-/

/-- Opcodes determined by the lexer (`enum OpCode` in the source). -/
inductive OpCode where
  | IncrementPointer
  | DecrementPointer
  | Increment
  | Decrement
  | Write
  | Read
  | LoopBegin
  | LoopEnd
deriving DecidableEq, Repr

/-- Parsed instructions (`enum Instruction` in the source); `Loop` owns a
nested instruction sequence. -/
inductive Instruction where
  | IncrementPointer
  | DecrementPointer
  | Increment
  | Decrement
  | Write
  | Read
  | Loop (body : List Instruction)
deriving Repr

/-- The `match symbol` table inside `lex`: the eight command characters map
to their opcode, every other character to `None`. -/
def charToOp (symbol : Char) : Option OpCode :=
  match symbol with
  | '>' => some OpCode.IncrementPointer
  | '<' => some OpCode.DecrementPointer
  | '+' => some OpCode.Increment
  | '-' => some OpCode.Decrement
  | '.' => some OpCode.Write
  | ',' => some OpCode.Read
  | '[' => some OpCode.LoopBegin
  | ']' => some OpCode.LoopEnd
  | _ => none

/-- `fn lex`: walk the source characters in order, pushing the opcode of
each command character and skipping every other character. -/
def lex : List Char → List OpCode
  | [] => []
  | symbol :: rest =>
    match charToOp symbol with
    | some op => op :: lex rest
    | none => lex rest

/-- The ways `fn run` can abort (each is a Rust panic in the source, under
the default profile's checked arithmetic). -/
inductive RunErr where
  /-- `*data_pointer += 1` overflowing `usize`. -/
  | pointerOverflow
  /-- `*data_pointer -= 1` underflowing `usize` (pointer at 0). -/
  | pointerUnderflow
  /-- `bf_memory[p] += 1` overflowing `u8` (cell at 255). -/
  | cellOverflow
  /-- `bf_memory[p] -= 1` underflowing `u8` (cell at 0). -/
  | cellUnderflow
  /-- `bf_memory[p]` indexing past the end of the tape. -/
  | outOfBounds
  /-- `read_exact` failing: stdin exhausted. -/
  | inputExhausted
deriving DecidableEq, Repr

/-- `usize::MAX` on a 64-bit target. -/
def USIZE_MAX : Nat := 2 ^ 64 - 1

/-- The mutable state threaded through `fn run`: the tape (`bf_memory`,
cells are `u8`, held as `Nat` values below 256), the data pointer, and the
two byte streams (stdin still unread, stdout written so far). -/
structure ExecState where
  tape : List Nat
  ptr : Nat
  input : List Nat
  output : List Nat
deriving DecidableEq, Repr

/-- The bytes `print!("{}", c)` writes to (UTF-8) stdout for a `char` with
code point `c < 0x800`; a tape cell is a `u8`, so `c < 256` always. -/
def utf8Bytes (c : Nat) : List Nat :=
  if c < 128 then [c] else [192 + c / 64, 128 + c % 64]

/-- `fn run`, fuelled: one unit of fuel is spent per instruction dispatched
and per loop re-check, so `none` means the fuel ran out (the Rust loop
would still be running), `some (.ok s)` normal completion in state `s`, and
`some (.error e)` the panic `e`.  Matches the source case by case:
pointer moves are checked `usize` arithmetic, cell updates first index the
tape (out-of-bounds panic) and then do checked `u8` arithmetic, `Write`
prints the cell as a `char`, `Read` takes one byte from stdin (panicking
when it is exhausted) and stores it, and `Loop body` re-reads the current
cell and runs `body` once whenever it is nonzero. -/
def runF : Nat → List Instruction → ExecState → Option (Except RunErr ExecState)
  | 0, _, _ => none
  | _ + 1, [], s => some (Except.ok s)
  | fuel + 1, instr :: rest, s =>
    match instr with
    | Instruction.IncrementPointer =>
      if s.ptr = USIZE_MAX then some (Except.error RunErr.pointerOverflow)
      else runF fuel rest { s with ptr := s.ptr + 1 }
    | Instruction.DecrementPointer =>
      if s.ptr = 0 then some (Except.error RunErr.pointerUnderflow)
      else runF fuel rest { s with ptr := s.ptr - 1 }
    | Instruction.Increment =>
      match s.tape[s.ptr]? with
      | none => some (Except.error RunErr.outOfBounds)
      | some v =>
        if v = 255 then some (Except.error RunErr.cellOverflow)
        else runF fuel rest { s with tape := s.tape.set s.ptr (v + 1) }
    | Instruction.Decrement =>
      match s.tape[s.ptr]? with
      | none => some (Except.error RunErr.outOfBounds)
      | some v =>
        if v = 0 then some (Except.error RunErr.cellUnderflow)
        else runF fuel rest { s with tape := s.tape.set s.ptr (v - 1) }
    | Instruction.Write =>
      match s.tape[s.ptr]? with
      | none => some (Except.error RunErr.outOfBounds)
      | some v => runF fuel rest { s with output := s.output ++ utf8Bytes v }
    | Instruction.Read =>
      match s.input with
      | [] => some (Except.error RunErr.inputExhausted)
      | b :: bs =>
        if s.ptr < s.tape.length then
          runF fuel rest { s with tape := s.tape.set s.ptr b, input := bs }
        else some (Except.error RunErr.outOfBounds)
    | Instruction.Loop body =>
      match s.tape[s.ptr]? with
      | none => some (Except.error RunErr.outOfBounds)
      | some v =>
        if v = 0 then runF fuel rest s
        else
          match runF fuel body s with
          | none => none
          | some (Except.error e) => some (Except.error e)
          | some (Except.ok s') => runF fuel (Instruction.Loop body :: rest) s'

/-- The two ways `fn parse` can `panic!`. -/
inductive ParseErr where
  /-- `"Loop ending at #{i} has no beginning"`: position of the offending
  loop-end opcode. -/
  | unmatchedLoopEnd (pos : Nat)
  /-- `"Loop that starts at #{loop_start} has no matching ending!"`:
  position where the unclosed loop began. -/
  | unmatchedLoopStart (pos : Nat)
deriving DecidableEq, Repr

/-- With first components ordered strictly, a pair ordered lexicographically
is below another when the first component drops, or stays while the second
drops. -/
theorem natPairLex {a b c d : Nat} (h : a < c ∨ (a = c ∧ b < d)) :
    Prod.Lex (· < ·) (· < ·) (a, b) (c, d) := by
  rcases h with h | ⟨rfl, h⟩
  · exact Prod.Lex.left _ _ h
  · exact Prod.Lex.right _ h

/-- The `for (i, op) in opcodes.iter().enumerate()` loop of `fn parse`
together with the final unmatched-loop-start check.  `opcodes` is the
full argument of the enclosing `parse` call (needed for the
`opcodes[loop_start+1..i]` slice), `rest` the suffix of it from index `i`
on, and `loopStack`, `loopStart`, `program` the three mutable locals.
A closing bracket that returns `loop_stack` to 0 recursively parses the
recorded slice — the call `parseGo sub sub 0 0 0 []` is exactly
`parse(opcodes[loop_start+1..i].to_vec())` — and pushes a `Loop` node. -/
def parseGo : List OpCode → List OpCode → Nat → Nat → Nat →
    List Instruction → Except ParseErr (List Instruction)
  | _, [], _, loopStack, loopStart, program =>
    if loopStack ≠ 0 then Except.error (ParseErr.unmatchedLoopStart loopStart)
    else Except.ok program
  | opcodes, op :: rest', i, loopStack, loopStart, program =>
    if loopStack = 0 then
      match op with
      | OpCode.IncrementPointer =>
        parseGo opcodes rest' (i + 1) 0 loopStart (program ++ [Instruction.IncrementPointer])
      | OpCode.DecrementPointer =>
        parseGo opcodes rest' (i + 1) 0 loopStart (program ++ [Instruction.DecrementPointer])
      | OpCode.Increment =>
        parseGo opcodes rest' (i + 1) 0 loopStart (program ++ [Instruction.Increment])
      | OpCode.Decrement =>
        parseGo opcodes rest' (i + 1) 0 loopStart (program ++ [Instruction.Decrement])
      | OpCode.Write =>
        parseGo opcodes rest' (i + 1) 0 loopStart (program ++ [Instruction.Write])
      | OpCode.Read =>
        parseGo opcodes rest' (i + 1) 0 loopStart (program ++ [Instruction.Read])
      | OpCode.LoopBegin =>
        parseGo opcodes rest' (i + 1) 1 i program
      | OpCode.LoopEnd => Except.error (ParseErr.unmatchedLoopEnd i)
    else
      match op with
      | OpCode.LoopBegin =>
        parseGo opcodes rest' (i + 1) (loopStack + 1) loopStart program
      | OpCode.LoopEnd =>
        if loopStack - 1 = 0 then
          match parseGo ((opcodes.drop (loopStart + 1)).take (i - (loopStart + 1)))
              ((opcodes.drop (loopStart + 1)).take (i - (loopStart + 1))) 0 0 0 [] with
          | Except.error e => Except.error e
          | Except.ok body =>
            parseGo opcodes rest' (i + 1) (loopStack - 1) loopStart
              (program ++ [Instruction.Loop body])
        else parseGo opcodes rest' (i + 1) (loopStack - 1) loopStart program
      | _ => parseGo opcodes rest' (i + 1) loopStack loopStart program
termination_by opcodes rest _ _ _ _ => (opcodes.length, rest.length)
decreasing_by
  all_goals apply natPairLex
  all_goals first
    | exact Or.inr ⟨rfl, Nat.lt_succ_self _⟩
    | · have h1 : (List.take (i - (loopStart + 1))
            (List.drop (loopStart + 1) opcodes)).length
            ≤ opcodes.length - (loopStart + 1) := by
          rw [List.length_take, List.length_drop]
          exact min_le_right _ _
        have h2 : (op :: rest').length = rest'.length + 1 := rfl
        omega

/-- `fn parse`: run the enumeration loop over the whole opcode list with
`loop_stack = 0`, `loop_start = 0` and an empty program. -/
def parse (opcodes : List OpCode) : Except ParseErr (List Instruction) :=
  parseGo opcodes opcodes 0 0 0 []

deriving instance DecidableEq for Except

/-- Whether an opcode is one of the two loop brackets. -/
def isLoopOp : OpCode → Bool
  | OpCode.LoopBegin => true
  | OpCode.LoopEnd => true
  | _ => false

/-- Number of non-loop opcodes in a sequence. -/
def nonLoopCount (l : List OpCode) : Nat := l.countP (fun op => !isLoopOp op)

/-- Number of loop-begin opcodes in a sequence. -/
def opens (l : List OpCode) : Nat := l.countP (fun op => op == OpCode.LoopBegin)

/-- Number of loop-end opcodes in a sequence. -/
def closes (l : List OpCode) : Nat := l.countP (fun op => op == OpCode.LoopEnd)

/-- Number of non-`Loop` instructions in a tree, flattened recursively
through all `Loop` bodies. -/
def flatCount : List Instruction → Nat
  | [] => 0
  | Instruction.Loop body :: rest => flatCount body + flatCount rest
  | _ :: rest => 1 + flatCount rest

/-- Properly nested opcode sequences (loop-begins and loop-ends matched):
empty, a non-loop opcode followed by a balanced sequence, or a
bracket-matched loop with balanced body followed by a balanced
continuation. -/
inductive Bal : List OpCode → Prop
  | nil : Bal []
  | op {o : OpCode} {l : List OpCode} : isLoopOp o = false → Bal l → Bal (o :: l)
  | loop {b l : List OpCode} : Bal b → Bal l →
      Bal (OpCode.LoopBegin :: b ++ OpCode.LoopEnd :: l)

/-- Proof-side table: the instruction each of the six identical non-loop
arms of `parse`'s depth-0 `match op` pushes (arbitrary on the two loop
opcodes, whose arms push nothing). -/
def instrOfOp : OpCode → Instruction
  | OpCode.IncrementPointer => Instruction.IncrementPointer
  | OpCode.DecrementPointer => Instruction.DecrementPointer
  | OpCode.Increment => Instruction.Increment
  | OpCode.Decrement => Instruction.Decrement
  | OpCode.Write => Instruction.Write
  | OpCode.Read => Instruction.Read
  | OpCode.LoopBegin => Instruction.Loop []
  | OpCode.LoopEnd => Instruction.Loop []

/-- A non-loop opcode at depth 0 appends its instruction. -/
theorem parseGo_cons_nonloop {op : OpCode} (h : isLoopOp op = false)
    (oc r : List OpCode) (i ls : Nat) (prog : List Instruction) :
    parseGo oc (op :: r) i 0 ls prog =
      parseGo oc r (i + 1) 0 ls (prog ++ [instrOfOp op]) := by
  cases op <;> first
    | exact absurd h (by decide)
    | simp [parseGo, instrOfOp]

/-- A loop-begin at depth 0 enters depth 1 and records its index. -/
theorem parseGo_cons_loopbegin_zero (oc r : List OpCode) (i ls : Nat)
    (prog : List Instruction) :
    parseGo oc (OpCode.LoopBegin :: r) i 0 ls prog =
      parseGo oc r (i + 1) 1 i prog := by
  simp [parseGo]

/-- A loop-end at depth 0 is the unmatched-loop-end panic, at its index. -/
theorem parseGo_cons_loopend_zero (oc r : List OpCode) (i ls : Nat)
    (prog : List Instruction) :
    parseGo oc (OpCode.LoopEnd :: r) i 0 ls prog =
      Except.error (ParseErr.unmatchedLoopEnd i) := by
  simp [parseGo]

/-- A non-loop opcode at depth ≥ 1 is skipped. -/
theorem parseGo_cons_skip {op : OpCode} (h : isLoopOp op = false)
    {d : Nat} (hd : d ≠ 0) (oc r : List OpCode) (i ls : Nat)
    (prog : List Instruction) :
    parseGo oc (op :: r) i d ls prog = parseGo oc r (i + 1) d ls prog := by
  cases op <;> first
    | exact absurd h (by decide)
    | simp [parseGo, if_neg hd]

/-- A loop-begin at depth ≥ 1 just increments the depth. -/
theorem parseGo_cons_loopbegin_pos {d : Nat} (hd : d ≠ 0)
    (oc r : List OpCode) (i ls : Nat) (prog : List Instruction) :
    parseGo oc (OpCode.LoopBegin :: r) i d ls prog =
      parseGo oc r (i + 1) (d + 1) ls prog := by
  simp [parseGo, if_neg hd]

/-- A loop-end at depth ≥ 2 just decrements the depth. -/
theorem parseGo_cons_loopend_deep {d : Nat} (hd : d ≠ 0) (hd2 : d - 1 ≠ 0)
    (oc r : List OpCode) (i ls : Nat) (prog : List Instruction) :
    parseGo oc (OpCode.LoopEnd :: r) i d ls prog =
      parseGo oc r (i + 1) (d - 1) ls prog := by
  simp [parseGo, if_neg hd, if_neg hd2]

/-- A loop-end at depth 1 parses the recorded slice and pushes a `Loop`. -/
theorem parseGo_cons_loopend_close (oc r : List OpCode) (i ls : Nat)
    (prog : List Instruction) :
    parseGo oc (OpCode.LoopEnd :: r) i 1 ls prog =
      match parseGo ((oc.drop (ls + 1)).take (i - (ls + 1)))
          ((oc.drop (ls + 1)).take (i - (ls + 1))) 0 0 0 [] with
      | Except.error e => Except.error e
      | Except.ok body =>
        parseGo oc r (i + 1) 0 ls (prog ++ [Instruction.Loop body]) := by
  simp [parseGo]

/-- A loop-end at depth 1 whose recorded slice parses successfully pushes
the resulting `Loop` and continues at depth 0. -/
theorem parseGo_cons_loopend_close_ok (oc r : List OpCode) (i ls : Nat)
    (prog : List Instruction) {body : List Instruction}
    (hsub : parseGo ((oc.drop (ls + 1)).take (i - (ls + 1)))
        ((oc.drop (ls + 1)).take (i - (ls + 1))) 0 0 0 [] = Except.ok body) :
    parseGo oc (OpCode.LoopEnd :: r) i 1 ls prog =
      parseGo oc r (i + 1) 0 ls (prog ++ [Instruction.Loop body]) := by
  rw [parseGo_cons_loopend_close, hsub]

/-- An exhausted range at depth 0 returns the program built so far. -/
theorem parseGo_nil_zero (oc : List OpCode) (i ls : Nat)
    (prog : List Instruction) :
    parseGo oc [] i 0 ls prog = Except.ok prog := by
  simp [parseGo]

/-- An exhausted range at depth ≥ 1 is the unmatched-loop-start panic, at
the recorded loop start. -/
theorem parseGo_nil_pos {d : Nat} (hd : d ≠ 0) (oc : List OpCode)
    (i ls : Nat) (prog : List Instruction) :
    parseGo oc [] i d ls prog =
      Except.error (ParseErr.unmatchedLoopStart ls) := by
  simp [parseGo, hd]

/-- Scanning a balanced segment at depth ≥ 1 consumes it without touching
the accumulated program: inner brackets re-balance and every other opcode
is skipped at this level. -/
theorem parseGo_skip_bal {b : List OpCode} (hb : Bal b) :
    ∀ (oc rest : List OpCode) (i d ls : Nat) (prog : List Instruction),
      d ≠ 0 →
      parseGo oc (b ++ rest) i d ls prog =
        parseGo oc rest (i + b.length) d ls prog := by
  induction hb with
  | nil => intro oc rest i d ls prog _; simp
  | @op o l h _ ih =>
    intro oc rest i d ls prog hd
    rw [List.cons_append, parseGo_cons_skip h hd, ih _ _ _ _ _ _ hd]
    have : i + 1 + l.length = i + (o :: l).length := by
      simp [List.length_cons]; try omega
    rw [this]
  | @loop b1 b2 _ _ ih1 ih2 =>
    intro oc rest i d ls prog hd
    have h1 : (OpCode.LoopBegin :: b1 ++ OpCode.LoopEnd :: b2) ++ rest =
        OpCode.LoopBegin :: (b1 ++ (OpCode.LoopEnd :: (b2 ++ rest))) := by
      simp
    rw [h1, parseGo_cons_loopbegin_pos hd,
      ih1 _ _ _ _ _ _ (Nat.succ_ne_zero d),
      parseGo_cons_loopend_deep (Nat.succ_ne_zero d) (by omega),
      Nat.succ_sub_one, ih2 _ _ _ _ _ _ hd]
    have : i + 1 + b1.length + 1 + b2.length =
        i + (OpCode.LoopBegin :: b1 ++ OpCode.LoopEnd :: b2).length := by
      simp [List.length_cons, List.length_append]; try omega
    rw [this]

/-- A non-loop opcode maps to a non-`Loop` instruction, which counts 1. -/
theorem flatCount_cons_nonloop {o : OpCode} (h : isLoopOp o = false)
    (ins : List Instruction) :
    flatCount (instrOfOp o :: ins) = 1 + flatCount ins := by
  cases o <;> first
    | exact absurd h (by decide)
    | simp [instrOfOp, flatCount]

/-- Processing a balanced prefix from depth 0 appends exactly that prefix's
instructions to the accumulated program and moves past it; the flattened
non-loop instruction count of what was appended equals the prefix's
non-loop opcode count. -/
theorem parseGo_bal {ops : List OpCode} (hops : Bal ops) :
    ∀ (oc tail : List OpCode) (i ls : Nat) (prog : List Instruction),
      oc.drop i = ops ++ tail →
      ∃ (ins : List Instruction) (ls2 : Nat),
        parseGo oc (ops ++ tail) i 0 ls prog =
          parseGo oc tail (i + ops.length) 0 ls2 (prog ++ ins) ∧
        flatCount ins = nonLoopCount ops := by
  induction hops with
  | nil =>
    intro oc tail i ls prog _
    exact ⟨[], ls, by simp, by simp [flatCount, nonLoopCount]⟩
  | @op o l h _ ih =>
    intro oc tail i ls prog hdrop
    have hdrop1 : oc.drop (i + 1) = l ++ tail := by
      have h2 : oc.drop (i + 1) = (oc.drop i).drop 1 := by
        rw [List.drop_drop, Nat.add_comm]
      rw [h2, hdrop, List.cons_append, List.drop_one, List.tail_cons]
    obtain ⟨ins, ls2, heq, hcount⟩ :=
      ih oc tail (i + 1) ls (prog ++ [instrOfOp o]) hdrop1
    refine ⟨instrOfOp o :: ins, ls2, ?_, ?_⟩
    · rw [List.cons_append, parseGo_cons_nonloop h, heq]
      have h3 : i + 1 + l.length = i + (o :: l).length := by
        simp [List.length_cons]; try omega
      have h4 : prog ++ [instrOfOp o] ++ ins = prog ++ (instrOfOp o :: ins) := by
        simp
      rw [h3, h4]
    · rw [flatCount_cons_nonloop h, hcount]
      have hto : (!isLoopOp o) = true := by rw [h]; rfl
      simp [nonLoopCount, List.countP_cons, hto]
      try omega
  | @loop b r hb _ ihb ihr =>
    intro oc tail i ls prog hdrop
    have hshape : (OpCode.LoopBegin :: b ++ OpCode.LoopEnd :: r) ++ tail =
        OpCode.LoopBegin :: (b ++ (OpCode.LoopEnd :: (r ++ tail))) := by
      simp
    have hdrop1 : oc.drop (i + 1) = b ++ (OpCode.LoopEnd :: (r ++ tail)) := by
      have h2 : oc.drop (i + 1) = (oc.drop i).drop 1 := by
        rw [List.drop_drop, Nat.add_comm]
      rw [h2, hdrop, hshape, List.drop_one, List.tail_cons]
    -- the recorded slice `opcodes[loop_start+1..i]` is exactly the body `b`
    have hslice : (oc.drop (i + 1)).take (i + 1 + b.length - (i + 1)) = b := by
      rw [hdrop1, Nat.add_sub_cancel_left, List.take_left]
    -- the recursive `parse` call on the body
    obtain ⟨insb, lsb, heqb, hcountb⟩ := ihb b [] 0 0 [] (by simp)
    rw [List.append_nil] at heqb
    have hbody : parseGo b b 0 0 0 [] = Except.ok insb := by
      rw [heqb, parseGo_nil_zero]
      simp
    -- continuation after the closing bracket
    have hdrop2 : oc.drop (i + (b.length + 2)) = r ++ tail := by
      rw [← List.drop_drop, hdrop, hshape]
      have h5 : OpCode.LoopBegin :: (b ++ (OpCode.LoopEnd :: (r ++ tail))) =
          (OpCode.LoopBegin :: b ++ [OpCode.LoopEnd]) ++ (r ++ tail) := by
        simp
      have h6 : b.length + 2 = (OpCode.LoopBegin :: b ++ [OpCode.LoopEnd]).length := by
        simp [List.length_cons, List.length_append]; try omega
      rw [h5, h6, List.drop_left]
    obtain ⟨insr, lsr, heqr, hcountr⟩ :=
      ihr oc tail (i + (b.length + 2)) i (prog ++ [Instruction.Loop insb]) hdrop2
    refine ⟨Instruction.Loop insb :: insr, lsr, ?_, ?_⟩
    · rw [hshape, parseGo_cons_loopbegin_zero,
        parseGo_skip_bal hb _ _ _ _ _ _ Nat.one_ne_zero,
        parseGo_cons_loopend_close_ok _ _ _ _ _ (by rw [hslice]; exact hbody)]
      have h7 : i + 1 + b.length + 1 = i + (b.length + 2) := by omega
      rw [h7, heqr]
      have h8 : i + (b.length + 2) + r.length =
          i + (OpCode.LoopBegin :: b ++ OpCode.LoopEnd :: r).length := by
        simp [List.length_cons, List.length_append]; try omega
      have h9 : prog ++ [Instruction.Loop insb] ++ insr =
          prog ++ (Instruction.Loop insb :: insr) := by simp
      rw [h8, h9]
    · have h10 : flatCount (Instruction.Loop insb :: insr) =
          flatCount insb + flatCount insr := by simp [flatCount]
      rw [h10, hcountb, hcountr]
      simp [nonLoopCount, List.countP_cons, List.countP_append, isLoopOp]

/-- `parse` maps a whole balanced sequence to a successful program whose
flattened non-loop instruction count matches. -/
theorem parse_bal {ops : List OpCode} (hops : Bal ops) :
    ∃ prog, parse ops = Except.ok prog ∧ flatCount prog = nonLoopCount ops := by
  obtain ⟨ins, ls2, heq, hcount⟩ := parseGo_bal hops ops [] 0 0 [] (by simp)
  rw [List.append_nil] at heq
  refine ⟨ins, ?_, hcount⟩
  rw [parse, heq, parseGo_nil_zero]
  simp

/-- Scanning a segment during which the nesting depth never returns to 0
ends the range still inside a loop: the unmatched-loop-start panic, at the
recorded loop start. -/
theorem parseGo_noclose {suf : List OpCode} :
    ∀ (oc : List OpCode) (i d ls : Nat) (prog : List Instruction),
      d ≠ 0 →
      (∀ n, closes (suf.take n) < d + opens (suf.take n)) →
      parseGo oc suf i d ls prog =
        Except.error (ParseErr.unmatchedLoopStart ls) := by
  induction suf with
  | nil => intro oc i d ls prog hd _; exact parseGo_nil_pos hd oc i ls prog
  | cons o suf ih =>
    intro oc i d ls prog hd hnc
    cases o with
    | LoopBegin =>
      rw [parseGo_cons_loopbegin_pos hd]
      apply ih _ _ _ _ _ (Nat.succ_ne_zero d)
      intro n
      have hstep := hnc (n + 1)
      rw [List.take_succ_cons] at hstep
      simp only [closes, opens, List.countP_cons] at hstep ⊢
      simp at hstep
      omega
    | LoopEnd =>
      have hone := hnc 1
      simp [closes, opens, List.countP_cons] at hone
      rw [parseGo_cons_loopend_deep hd (by omega)]
      apply ih _ _ _ _ _ (by omega)
      intro n
      have hstep := hnc (n + 1)
      rw [List.take_succ_cons] at hstep
      simp only [closes, opens, List.countP_cons] at hstep ⊢
      simp at hstep
      omega
    | _ =>
      rw [parseGo_cons_skip (by decide) hd]
      apply ih _ _ _ _ _ hd
      intro n
      have hstep := hnc (n + 1)
      rw [List.take_succ_cons] at hstep
      simp only [closes, opens, List.countP_cons] at hstep ⊢
      simp at hstep
      omega

/-- `Loop` with the tested cell zero falls through to the rest. -/
theorem runF_loop_zero {s : ExecState} (h : s.tape[s.ptr]? = some 0)
    (fuel : Nat) (body rest : List Instruction) :
    runF (fuel + 1) (Instruction.Loop body :: rest) s = runF fuel rest s := by
  simp [runF, h]

/-- `Loop` with the tested cell nonzero runs the whole body once and then
re-enters the same `Loop` (re-checking the then-current cell). -/
theorem runF_loop_iter {s : ExecState} {v : Nat}
    (h : s.tape[s.ptr]? = some v) (hv : v ≠ 0)
    (fuel : Nat) (body rest : List Instruction) :
    runF (fuel + 1) (Instruction.Loop body :: rest) s =
      match runF fuel body s with
      | none => none
      | some (Except.error e) => some (Except.error e)
      | some (Except.ok s1) => runF fuel (Instruction.Loop body :: rest) s1 := by
  simp [runF, h, hv]

/-- Whatever `run` does, the tape length never changes: every tape update
in the source is an in-place `bf_memory[p] = _` store. -/
theorem runF_tape_length :
    ∀ (fuel : Nat) (instrs : List Instruction) (s s' : ExecState),
      runF fuel instrs s = some (Except.ok s') →
      s'.tape.length = s.tape.length := by
  intro fuel
  induction fuel with
  | zero => intro instrs s s' h; simp [runF] at h
  | succ fuel ih =>
    intro instrs s s' h
    cases instrs with
    | nil =>
      simp [runF] at h
      rw [← h]
    | cons instr rest =>
      cases instr with
      | IncrementPointer =>
        simp only [runF] at h
        split at h
        · simp at h
        · exact (ih _ _ _ h).trans rfl
      | DecrementPointer =>
        simp only [runF] at h
        split at h
        · simp at h
        · exact (ih _ _ _ h).trans rfl
      | Increment =>
        simp only [runF] at h
        split at h
        · simp at h
        · split at h
          · simp at h
          · exact (ih _ _ _ h).trans (List.length_set _ _ _)
      | Decrement =>
        simp only [runF] at h
        split at h
        · simp at h
        · split at h
          · simp at h
          · exact (ih _ _ _ h).trans (List.length_set _ _ _)
      | Write =>
        simp only [runF] at h
        split at h
        · simp at h
        · exact (ih _ _ _ h).trans rfl
      | Read =>
        simp only [runF] at h
        split at h
        · simp at h
        · split at h
          · exact (ih _ _ _ h).trans (List.length_set _ _ _)
          · simp at h
      | Loop body =>
        simp only [runF] at h
        split at h
        · simp at h
        · split at h
          · exact ih _ _ _ h
          · split at h
            · simp at h
            · simp at h
            · rename_i s1 heq1
              exact (ih _ _ _ h).trans (ih _ _ _ heq1)

theorem opens_cons (o : OpCode) (l : List OpCode) :
    opens (o :: l) = opens l + (if o = OpCode.LoopBegin then 1 else 0) := by
  cases o <;> simp [opens, List.countP_cons]

theorem closes_cons (o : OpCode) (l : List OpCode) :
    closes (o :: l) = closes l + (if o = OpCode.LoopEnd then 1 else 0) := by
  cases o <;> simp [closes, List.countP_cons]

theorem opens_append (l1 l2 : List OpCode) :
    opens (l1 ++ l2) = opens l1 + opens l2 := by
  simp [opens, List.countP_append]

theorem closes_append (l1 l2 : List OpCode) :
    closes (l1 ++ l2) = closes l1 + closes l2 := by
  simp [closes, List.countP_append]

/-- A sequence whose loop brackets are balanced in the counting sense —
every prefix has at least as many loop-begins as loop-ends, and the totals
agree — is properly nested. -/
theorem bal_of_counts :
    ∀ (N : Nat) (l : List OpCode), l.length ≤ N →
      (∀ n, closes (l.take n) ≤ opens (l.take n)) →
      opens l = closes l → Bal l := by
  intro N
  induction N with
  | zero =>
    intro l hlen _ _
    have hl : l = [] := List.eq_nil_of_length_eq_zero (Nat.le_zero.mp hlen)
    rw [hl]
    exact Bal.nil
  | succ N ih =>
    intro l hlen hpre htot
    cases l with
    | nil => exact Bal.nil
    | cons o rest =>
      have hrlen : rest.length ≤ N := by
        simp [List.length_cons] at hlen
        omega
      by_cases hLE : o = OpCode.LoopEnd
      · exfalso
        have h1 := hpre 1
        rw [List.take_succ_cons, List.take_zero, hLE] at h1
        simp [closes, opens, List.countP_cons] at h1
      by_cases hLB : o = OpCode.LoopBegin
      case neg =>
        -- non-loop head: peel it off
        have hnl : isLoopOp o = false := by
          cases o <;> first
            | rfl
            | exact absurd rfl hLB
            | exact absurd rfl hLE
        refine Bal.op hnl (ih rest hrlen ?_ ?_)
        · intro n
          have h := hpre (n + 1)
          rw [List.take_succ_cons, closes_cons, opens_cons, if_neg hLB,
            if_neg hLE] at h
          omega
        · have h := htot
          rw [closes_cons, opens_cons, if_neg hLB, if_neg hLE] at h
          omega
      case pos =>
        subst hLB
        have hpre' : ∀ n, closes (rest.take n) ≤ opens (rest.take n) + 1 := by
          intro n
          have h := hpre (n + 1)
          rw [List.take_succ_cons, closes_cons, opens_cons, if_pos rfl,
            if_neg (by simp)] at h
          omega
        have htot' : closes rest = opens rest + 1 := by
          rw [closes_cons, opens_cons, if_pos rfl, if_neg (by simp)] at htot
          omega
        have hP : ∃ n, closes (rest.take n) = opens (rest.take n) + 1 :=
          ⟨rest.length, by rw [List.take_length]; exact htot'⟩
        obtain ⟨j, hPj, hmin, hjle⟩ :
            ∃ j, closes (rest.take j) = opens (rest.take j) + 1 ∧
              (∀ m, m < j → ¬ closes (rest.take m) = opens (rest.take m) + 1) ∧
              j ≤ rest.length :=
          ⟨Nat.find hP, Nat.find_spec hP, fun m hm => Nat.find_min hP hm,
            Nat.find_min' hP (by rw [List.take_length]; exact htot')⟩
        have hj1 : 1 ≤ j := by
          rcases Nat.eq_zero_or_pos j with h0 | h0
          · exfalso
            rw [h0] at hPj
            simp [closes, opens] at hPj
          · exact h0
        have hklen : j - 1 < rest.length := by omega
        have hsucc : j - 1 + 1 = j := by omega
        have htk : rest.take j = rest.take (j - 1) ++ [rest[j - 1]] := by
          conv in rest.take j => rw [← hsucc]
          rw [List.take_succ, List.getElem?_eq_getElem hklen]
          rfl
        have hkLE : rest[j - 1] = OpCode.LoopEnd := by
          by_contra hne
          have hk := hmin (j - 1) (by omega)
          have hk2 := hpre' (j - 1)
          rw [htk, closes_append, opens_append] at hPj
          have hoc : opens [rest[j - 1]] ≤ 1 := by
            cases h : rest[j - 1] <;> simp [opens, List.countP_cons]
          have hcc : closes [rest[j - 1]] = 0 := by
            cases h : rest[j - 1] <;>
              first
                | exact absurd h hne
                | simp [closes, List.countP_cons]
          omega
        rw [hkLE] at htk
        have hsplit : rest = rest.take (j - 1) ++
            OpCode.LoopEnd :: rest.drop j := by
          have h1 : rest.drop (j - 1) = rest[j - 1] :: rest.drop j := by
            have h2 := List.drop_eq_getElem_cons hklen
            rw [hsucc] at h2
            exact h2
          rw [← hkLE, ← h1, List.take_append_drop]
        set b := rest.take (j - 1) with hbdef
        set r := rest.drop j with hrdef
        have hblen : b.length = j - 1 := by
          rw [hbdef, List.length_take]
          exact min_eq_left (by omega)
        have hb_pre : ∀ n, closes (b.take n) ≤ opens (b.take n) := by
          intro n
          rw [hbdef, List.take_take]
          have hm : min n (j - 1) < j := by
            have := min_le_right n (j - 1)
            omega
          have h1 := hpre' (min n (j - 1))
          have h2 := hmin _ hm
          omega
        have hb_tot : opens b = closes b := by
          have h2 := hmin (j - 1) (by omega)
          have h3 := hpre' (j - 1)
          rw [← hbdef] at h2 h3
          rw [htk, closes_append, opens_append] at hPj
          have hc1 : closes [OpCode.LoopEnd] = 1 := by decide
          have ho1 : opens [OpCode.LoopEnd] = 0 := by decide
          rw [hc1, ho1] at hPj
          omega
        have hdt : ∀ n, rest.take (j + n) = b ++ OpCode.LoopEnd :: r.take n := by
          intro n
          have h4 : j + n - (j - 1) = n + 1 := by omega
          rw [hsplit, List.take_append_eq_append_take,
            List.take_of_length_le (by rw [hblen]; omega), hblen, h4,
            List.take_succ_cons]
        have hr_pre : ∀ n, closes (r.take n) ≤ opens (r.take n) := by
          intro n
          have h := hpre' (j + n)
          rw [hdt n, closes_append, opens_append, closes_cons, opens_cons,
            if_pos rfl, if_neg (by decide)] at h
          omega
        have hr_tot : opens r = closes r := by
          have h := htot'
          rw [hsplit, closes_append, opens_append, closes_cons, opens_cons,
            if_pos rfl, if_neg (by decide)] at h
          omega
        have hbal_b := ih b (by rw [hblen]; omega) hb_pre hb_tot
        have hbal_r := ih r (by rw [hrdef, List.length_drop]; omega)
          hr_pre hr_tot
        rw [hsplit]
        exact Bal.loop hbal_b hbal_r

/-- The tape `fn main` builds: `vec![0; 1024]`. -/
def initTape : List Nat := List.replicate 1024 0

/-- The executor state `fn main` starts `run` in: fresh tape, pointer 0,
nothing written yet, a given stdin. -/
def initState (input : List Nat) : ExecState :=
  { tape := initTape, ptr := 0, input := input, output := [] }

/-! ## Claim theorems -/

/-- C1: the claim states that cell arithmetic wraps modulo 256 and never
fails (increment on 255 gives 0, decrement on 0 gives 255).  The code's
`bf_memory[p] += 1` / `-= 1` is plain checked `u8` arithmetic, which under
the default (debug) Rust profile panics on overflow instead of wrapping:
incrementing a cell holding 255 aborts execution with an add-overflow
panic, and decrementing a cell holding 0 aborts with a subtract-overflow
panic.  (Only a build with overflow checks disabled wraps as claimed.) -/
theorem C1_cell_arithmetic_panics_instead_of_wrapping :
    runF 1 [Instruction.Increment]
      { tape := initTape.set 0 255, ptr := 0, input := [], output := [] } =
      some (Except.error RunErr.cellOverflow) ∧
    runF 1 [Instruction.Decrement] (initState []) =
      some (Except.error RunErr.cellUnderflow) := by
  exact ⟨by decide, by decide⟩

/-- C2: parsing `"]"` fails with unmatched-loop-end at position 0 and
parsing `"["` fails with unmatched-loop-start at position 0; in general a
loop-end reached at nesting depth 0 (i.e. after a balanced prefix) fails
reporting that opcode's index, and a loop-begin after a balanced prefix
whose remainder never closes it fails reporting the index where the
unclosed loop began. -/
theorem C2_unmatched_bracket_errors :
    parse (lex "]".toList) = Except.error (ParseErr.unmatchedLoopEnd 0) ∧
    parse (lex "[".toList) = Except.error (ParseErr.unmatchedLoopStart 0) ∧
    (∀ (pre suf : List OpCode), Bal pre →
      parse (pre ++ OpCode.LoopEnd :: suf) =
        Except.error (ParseErr.unmatchedLoopEnd pre.length)) ∧
    (∀ (pre suf : List OpCode), Bal pre →
      (∀ n, closes (suf.take n) ≤ opens (suf.take n)) →
      parse (pre ++ OpCode.LoopBegin :: suf) =
        Except.error (ParseErr.unmatchedLoopStart pre.length)) := by
  refine ⟨?_, ?_, ?_, ?_⟩
  · have h : lex "]".toList = [OpCode.LoopEnd] := by decide
    rw [h]
    simp only [parse]
    rw [parseGo_cons_loopend_zero]
  · have h : lex "[".toList = [OpCode.LoopBegin] := by decide
    rw [h]
    simp only [parse]
    rw [parseGo_cons_loopbegin_zero, parseGo_nil_pos Nat.one_ne_zero]
  · intro pre suf hpre
    obtain ⟨ins, ls2, heq, _⟩ := parseGo_bal hpre (pre ++ OpCode.LoopEnd :: suf)
      (OpCode.LoopEnd :: suf) 0 0 [] (by simp)
    simp only [parse]
    rw [heq, parseGo_cons_loopend_zero]
    simp
  · intro pre suf hpre hnc
    obtain ⟨ins, ls2, heq, _⟩ := parseGo_bal hpre
      (pre ++ OpCode.LoopBegin :: suf) (OpCode.LoopBegin :: suf) 0 0 []
      (by simp)
    simp only [parse]
    rw [heq, parseGo_cons_loopbegin_zero,
      parseGo_noclose _ _ _ _ _ Nat.one_ne_zero
        (fun n => by have := hnc n; omega)]
    simp

/-- C2 witness: the unmatched-loop-start branch applied at the empty
balanced prefix and empty remainder, i.e. the one-opcode program `[`. -/
theorem C2_unmatched_bracket_errors_witness :
    parse [OpCode.LoopBegin] = Except.error (ParseErr.unmatchedLoopStart 0) := by
  have h := C2_unmatched_bracket_errors.2.2.2 [] [] Bal.nil
    (fun n => by simp [closes, opens])
  simpa using h

/-- C3: every syntactically balanced opcode sequence — stated both by
bracket counting (every prefix has at least as many loop-begins as
loop-ends and the totals agree) and as the proper-nesting predicate `Bal`
— parses successfully, the flattened count of non-loop instructions in
the result equals the count of non-loop opcodes in the input, and an
immediately closed loop pair parses to a `Loop` with empty body rather
than an error. -/
theorem C3_parse_balanced_roundtrip :
    (∀ ops : List OpCode,
      (∀ n, closes (ops.take n) ≤ opens (ops.take n)) →
      opens ops = closes ops →
      ∃ prog, parse ops = Except.ok prog ∧
        flatCount prog = nonLoopCount ops) ∧
    (∀ ops : List OpCode, Bal ops →
      ∃ prog, parse ops = Except.ok prog ∧
        flatCount prog = nonLoopCount ops) ∧
    parse [OpCode.LoopBegin, OpCode.LoopEnd] =
      Except.ok [Instruction.Loop []] := by
  refine ⟨?_, ?_, ?_⟩
  · intro ops hpre htot
    exact parse_bal (bal_of_counts ops.length ops le_rfl hpre htot)
  · intro ops h
    exact parse_bal h
  · simp [parse, parseGo]

/-- C3 witness: the balanced two-opcode sequence `[]`. -/
theorem C3_parse_balanced_roundtrip_witness :
    ∃ prog, parse [OpCode.LoopBegin, OpCode.LoopEnd] = Except.ok prog ∧
      flatCount prog = nonLoopCount [OpCode.LoopBegin, OpCode.LoopEnd] :=
  C3_parse_balanced_roundtrip.2.1 _ (Bal.loop Bal.nil Bal.nil)

/-- C4: the scanner is `filterMap` of the eight-symbol table — opcodes
appear in encounter order, its output length equals the number of command
characters in the input, a text with no command characters scans to `[]`,
and (being a total function) it never fails. -/
theorem C4_lex_scanner_properties :
    (∀ source : List Char, lex source = source.filterMap charToOp) ∧
    (∀ source : List Char,
      (lex source).length = source.countP (fun c => (charToOp c).isSome)) ∧
    (∀ source : List Char,
      (∀ c ∈ source, charToOp c = none) → lex source = []) := by
  refine ⟨?_, ?_, ?_⟩
  · intro source
    induction source with
    | nil => rfl
    | cons c rest ih => cases h : charToOp c <;> simp [lex, h, ih]
  · intro source
    induction source with
    | nil => rfl
    | cons c rest ih =>
      cases h : charToOp c <;> simp [lex, h, ih, List.countP_cons]
  · intro source
    induction source with
    | nil => intro _; rfl
    | cons c rest ih =>
      intro hnone
      have h := hnone c (List.mem_cons_self _ _)
      simp only [lex, h]
      exact ih (fun x hx => hnone x (List.mem_cons_of_mem _ hx))

/-- C4 witness: a text with no command characters scans to the empty
sequence. -/
theorem C4_lex_scanner_properties_witness :
    lex "hello world".toList = [] :=
  C4_lex_scanner_properties.2.2 _ (by decide)

/-- C5: a `Loop` re-reads the tested cell before each iteration — if it
reads 0 the loop is skipped / exited, if it reads nonzero the whole body
runs once and the same `Loop` is re-entered; in particular
`[increment-cell, Loop([decrement-cell])]` from a zeroed tape terminates
back in the zeroed starting state (the body ran exactly once). -/
theorem C5_loop_rechecks_cell_each_iteration :
    (∀ (fuel : Nat) (body rest : List Instruction) (s : ExecState),
      s.tape[s.ptr]? = some 0 →
      runF (fuel + 1) (Instruction.Loop body :: rest) s = runF fuel rest s) ∧
    (∀ (fuel : Nat) (body rest : List Instruction) (s : ExecState) (v : Nat),
      s.tape[s.ptr]? = some v → v ≠ 0 →
      runF (fuel + 1) (Instruction.Loop body :: rest) s =
        match runF fuel body s with
        | none => none
        | some (Except.error e) => some (Except.error e)
        | some (Except.ok s1) =>
          runF fuel (Instruction.Loop body :: rest) s1) ∧
    runF 10 [Instruction.Increment, Instruction.Loop [Instruction.Decrement]]
      (initState []) = some (Except.ok (initState [])) := by
  refine ⟨?_, ?_, by decide⟩
  · intro fuel body rest s h
    exact runF_loop_zero h fuel body rest
  · intro fuel body rest s v h hv
    exact runF_loop_iter h hv fuel body rest

/-- C5 witness: a loop over a zero cell exits at once. -/
theorem C5_loop_rechecks_cell_each_iteration_witness :
    runF 1 [Instruction.Loop [Instruction.Decrement]] (initState []) =
      runF 0 [] (initState []) :=
  C5_loop_rechecks_cell_each_iteration.1 0 _ _ _ (by decide)

/-- C6: the full pipeline on `"+[>+<-]"` from the zeroed 1024-cell tape
with the pointer at 0 terminates with cell 0 holding 0 and cell 1
holding 1. -/
theorem C6_end_to_end_copy_loop :
    ∃ (prog : List Instruction) (s1 : ExecState),
      parse (lex "+[>+<-]".toList) = Except.ok prog ∧
      runF 20 prog (initState []) = some (Except.ok s1) ∧
      s1.tape[0]? = some 0 ∧ s1.tape[1]? = some 1 := by
  refine ⟨[Instruction.Increment, Instruction.Loop
      [Instruction.IncrementPointer, Instruction.Increment,
       Instruction.DecrementPointer, Instruction.Decrement]],
    { tape := ((initTape.set 0 1).set 1 1).set 0 0, ptr := 0,
      input := [], output := [] }, ?_, by decide, by decide, by decide⟩
  have h : lex "+[>+<-]".toList = [OpCode.Increment, OpCode.LoopBegin,
      OpCode.IncrementPointer, OpCode.Increment, OpCode.DecrementPointer,
      OpCode.Decrement, OpCode.LoopEnd] := by decide
  rw [h]
  simp [parse, parseGo]

/-- C7: a read with exhausted stdin is a fatal input-exhausted error (the
rest of the program is never reached, whatever it is); a read with a byte
available consumes exactly that one byte and stores it at the current
pointer. -/
theorem C7_read_blocks_or_fails :
    (∀ (fuel : Nat) (rest : List Instruction) (s : ExecState),
      s.input = [] →
      runF (fuel + 1) (Instruction.Read :: rest) s =
        some (Except.error RunErr.inputExhausted)) ∧
    (∀ (fuel : Nat) (rest : List Instruction) (s : ExecState) (b : Nat)
      (bs : List Nat),
      s.input = b :: bs → s.ptr < s.tape.length →
      runF (fuel + 1) (Instruction.Read :: rest) s =
        runF fuel rest
          { tape := s.tape.set s.ptr b, ptr := s.ptr, input := bs,
            output := s.output }) := by
  constructor
  · intro fuel rest s h
    simp [runF, h]
  · intro fuel rest s b bs h hlt
    simp [runF, h, hlt]

/-- C7 witness: reading from an empty stdin fails fatally. -/
theorem C7_read_blocks_or_fails_witness :
    runF 1 [Instruction.Read] (initState []) =
      some (Except.error RunErr.inputExhausted) :=
  C7_read_blocks_or_fails.1 0 [] (initState []) rfl

/-- C8: a pointer move (that does not overflow `usize`) changes only the
pointer, by ±1, leaving the tape, the input and the output untouched; a
cell increment/decrement (that does not overflow `u8`) changes only the
cell at the current pointer, leaving the pointer, the streams, and every
other cell untouched. -/
theorem C8_pointer_and_cell_frame_effects :
    (∀ (fuel : Nat) (rest : List Instruction) (s : ExecState),
      s.ptr ≠ USIZE_MAX →
      runF (fuel + 1) (Instruction.IncrementPointer :: rest) s =
        runF fuel rest
          { tape := s.tape, ptr := s.ptr + 1, input := s.input,
            output := s.output }) ∧
    (∀ (fuel : Nat) (rest : List Instruction) (s : ExecState),
      s.ptr ≠ 0 →
      runF (fuel + 1) (Instruction.DecrementPointer :: rest) s =
        runF fuel rest
          { tape := s.tape, ptr := s.ptr - 1, input := s.input,
            output := s.output }) ∧
    (∀ (fuel : Nat) (rest : List Instruction) (s : ExecState) (v : Nat),
      s.tape[s.ptr]? = some v → v ≠ 255 →
      runF (fuel + 1) (Instruction.Increment :: rest) s =
        runF fuel rest
          { tape := s.tape.set s.ptr (v + 1), ptr := s.ptr,
            input := s.input, output := s.output } ∧
      (∀ j, j ≠ s.ptr → (s.tape.set s.ptr (v + 1))[j]? = s.tape[j]?)) ∧
    (∀ (fuel : Nat) (rest : List Instruction) (s : ExecState) (v : Nat),
      s.tape[s.ptr]? = some v → v ≠ 0 →
      runF (fuel + 1) (Instruction.Decrement :: rest) s =
        runF fuel rest
          { tape := s.tape.set s.ptr (v - 1), ptr := s.ptr,
            input := s.input, output := s.output } ∧
      (∀ j, j ≠ s.ptr → (s.tape.set s.ptr (v - 1))[j]? = s.tape[j]?)) := by
  refine ⟨?_, ?_, ?_, ?_⟩
  · intro fuel rest s h
    simp [runF, h]
  · intro fuel rest s h
    simp [runF, h]
  · intro fuel rest s v h hv
    exact ⟨by simp [runF, h, hv],
      fun j hj => List.getElem?_set_ne (Ne.symm hj)⟩
  · intro fuel rest s v h hv
    exact ⟨by simp [runF, h, hv],
      fun j hj => List.getElem?_set_ne (Ne.symm hj)⟩

/-- C8 witness: one pointer move right from the initial state. -/
theorem C8_pointer_and_cell_frame_effects_witness :
    runF 1 [Instruction.IncrementPointer] (initState []) =
      runF 0 [] { tape := initTape, ptr := 1, input := [], output := [] } :=
  C8_pointer_and_cell_frame_effects.1 0 [] (initState []) (by decide)

/-- C9 counterexample: the claim says write-cell emits exactly one byte
whose value equals the cell value, for every cell value.  The code prints
the cell as a Rust `char`; on a UTF-8 stdout a cell holding 200 therefore
emits the two bytes 195, 136 (the UTF-8 encoding of U+00C8) — not the
single byte 200. -/
theorem C9_write_single_byte_counterexample :
    runF 2 [Instruction.Write]
      { tape := initTape.set 0 200, ptr := 0, input := [], output := [] } =
      some (Except.ok
        { tape := initTape.set 0 200, ptr := 0, input := [],
          output := [195, 136] }) ∧
    ([195, 136] : List Nat) ≠ [200] ∧
    ([195, 136] : List Nat).length ≠ 1 := by
  exact ⟨by decide, by decide, by decide⟩

/-- C9 (amended): write-cell emits the UTF-8 encoding of the cell value as
a character — exactly one byte equal to the value when it is below 128,
and the two-byte UTF-8 sequence when it is 128–255 — appended to the
output in execution order; running `"++."` with empty input still produces
the single output byte 2. -/
theorem C9_write_emits_utf8_char :
    (∀ (fuel : Nat) (rest : List Instruction) (s : ExecState) (v : Nat),
      s.tape[s.ptr]? = some v →
      runF (fuel + 1) (Instruction.Write :: rest) s =
        runF fuel rest
          { tape := s.tape, ptr := s.ptr, input := s.input,
            output := s.output ++ utf8Bytes v }) ∧
    (∀ v : Nat, v < 128 → utf8Bytes v = [v]) ∧
    (∀ v : Nat, 128 ≤ v → v < 256 →
      utf8Bytes v = [192 + v / 64, 128 + v % 64] ∧
      (utf8Bytes v).length = 2) ∧
    (∃ s1 : ExecState,
      parse (lex "++.".toList) =
        Except.ok [Instruction.Increment, Instruction.Increment,
          Instruction.Write] ∧
      runF 10 [Instruction.Increment, Instruction.Increment,
        Instruction.Write] (initState []) = some (Except.ok s1) ∧
      s1.output = [2]) := by
  refine ⟨?_, ?_, ?_, ?_⟩
  · intro fuel rest s v h
    simp [runF, h]
  · intro v hv
    simp [utf8Bytes, hv]
  · intro v h1 h2
    rw [utf8Bytes, if_neg (by omega)]
    exact ⟨rfl, rfl⟩
  · refine
      ⟨{ tape := (initTape.set 0 1).set 0 2, ptr := 0,
         input := [], output := [2] }, ?_, by decide, rfl⟩
    have h : lex "++.".toList =
        [OpCode.Increment, OpCode.Increment, OpCode.Write] := by decide
    rw [h]
    simp [parse, parseGo]

/-- C9 witness (amended claim): writing a zero cell appends `utf8Bytes 0`,
i.e. the single byte 0. -/
theorem C9_write_emits_utf8_char_witness :
    runF 1 [Instruction.Write] (initState []) =
      runF 0 []
        { tape := initTape, ptr := 0, input := [],
          output := [] ++ utf8Bytes 0 } :=
  C9_write_emits_utf8_char.1 0 [] (initState []) 0 (by decide)

/-- C10: the implemented out-of-bounds policy is fatal failure, never
growth — the tape starts as exactly 1024 zero cells and its length is
invariant under execution; a pointer-left at pointer 0 aborts immediately
(checked `usize` underflow), and every cell-accessing instruction
(increment, decrement, write, read, loop test) with the pointer at or past
the end of the tape aborts with a fatal error. -/
theorem C10_out_of_bounds_is_fatal :
    initTape.length = 1024 ∧
    (∀ i : Nat, i < 1024 → initTape[i]? = some 0) ∧
    (∀ (fuel : Nat) (instrs : List Instruction) (s s1 : ExecState),
      runF fuel instrs s = some (Except.ok s1) →
      s1.tape.length = s.tape.length) ∧
    (∀ (fuel : Nat) (rest : List Instruction) (s : ExecState),
      s.ptr = 0 →
      runF (fuel + 1) (Instruction.DecrementPointer :: rest) s =
        some (Except.error RunErr.pointerUnderflow)) ∧
    (∀ (fuel : Nat) (body rest : List Instruction) (s : ExecState),
      s.tape.length ≤ s.ptr →
      (∃ e, runF (fuel + 1) (Instruction.Increment :: rest) s =
        some (Except.error e)) ∧
      (∃ e, runF (fuel + 1) (Instruction.Decrement :: rest) s =
        some (Except.error e)) ∧
      (∃ e, runF (fuel + 1) (Instruction.Write :: rest) s =
        some (Except.error e)) ∧
      (∃ e, runF (fuel + 1) (Instruction.Read :: rest) s =
        some (Except.error e)) ∧
      (∃ e, runF (fuel + 1) (Instruction.Loop body :: rest) s =
        some (Except.error e))) := by
  refine ⟨by simp [initTape], ?_, runF_tape_length, ?_, ?_⟩
  · intro i h
    rw [initTape, List.getElem?_replicate, if_pos h]
  · intro fuel rest s h
    simp [runF, h]
  · intro fuel body rest s hle
    have hnone : s.tape[s.ptr]? = none := List.getElem?_eq_none hle
    refine ⟨⟨RunErr.outOfBounds, by simp [runF, hnone]⟩,
      ⟨RunErr.outOfBounds, by simp [runF, hnone]⟩,
      ⟨RunErr.outOfBounds, by simp [runF, hnone]⟩, ?_,
      ⟨RunErr.outOfBounds, by simp [runF, hnone]⟩⟩
    cases hin : s.input with
    | nil => exact ⟨RunErr.inputExhausted, by simp [runF, hin]⟩
    | cons b bs =>
      exact ⟨RunErr.outOfBounds, by simp [runF, hin, Nat.not_lt.mpr hle]⟩

/-- C10 witness: a pointer-left from the initial state (pointer 0) aborts
with the fatal pointer-underflow panic. -/
theorem C10_out_of_bounds_is_fatal_witness :
    runF 1 [Instruction.DecrementPointer] (initState []) =
      some (Except.error RunErr.pointerUnderflow) :=
  C10_out_of_bounds_is_fatal.2.2.2.1 0 [] (initState []) rfl
